import Mathlib

/-!
# Verification of `src/minimax.js` (competitive_search)

Shallow embedding of the minimax / alpha-beta search core:

* `Player`, `GameState` — the data the State Adapter supplies: whose move is
  next (`nextMovePlayer`), the ordered successor list (`nextStates`), and the
  line-count feature query (`numLines`).
* `heuristic`, `isBaseCase`, `minimax`, `minimaxAlphaBeta` (with its inner
  closure `minimaxAlphaBetaInner` and its two `for` loops `abLoopMax` /
  `abLoopMin`), `minimaxWrapper`, `DEPTH` — translated line by line from
  `src/minimax.js`.

JS numbers on the integer values occurring here behave as exact integers, so
scores are embedded as `Int`.  Depth is a natural number (the spec fixes
`D ≥ 0` and the wrapper calls with 4).
-/

/-- The two player marks `'x'` and `'o'`. -/
inductive Player where
  | x : Player
  | o : Player
deriving DecidableEq, Repr

/-- A game state as the search observes it through the State Adapter:
`state.nextMovePlayer`, `state.nextStates()` (ordered successor list) and
`state.numLines(len, player)`. -/
inductive GameState where
  | node (nextMovePlayer : Player) (numLines : Nat → Player → Nat)
      (nextStates : List GameState) : GameState

/-- `state.nextMovePlayer` -/
def GameState.nextMovePlayer : GameState → Player
  | .node p _ _ => p

/-- `state.numLines(len, player)` -/
def GameState.numLines : GameState → Nat → Player → Nat
  | .node _ f _ => f

/-- `state.nextStates()` -/
def GameState.nextStates : GameState → List GameState
  | .node _ _ cs => cs

/-- The opposite mark; the source computes it inline as
`maximizingPlayer === 'x' ? 'o' : 'x'`. -/
def otherPlayer : Player → Player
  | Player.x => Player.o
  | Player.o => Player.x

/-- `const DEPTH = 4;` -/
def DEPTH : Nat := 4

/-- `heuristic(state, maximizingPlayer)` from `src/minimax.js`:
`advantageFunction(p)` is `[2,3,4].reduce((total, numLines) =>
total + state.numLines(numLines, player) * Math.pow(100, numLines), 0)`,
and the result is the maximizing player's advantage minus the minimizing
player's. -/
def heuristic (state : GameState) (maximizingPlayer : Player) : Int :=
  let minimizingPlayer := if maximizingPlayer = Player.x then Player.o else Player.x
  let advantageFunction := fun (player : Player) =>
    ([2, 3, 4] : List Nat).foldl
      (fun total numLines =>
        total + (state.numLines numLines player : Int) * 100 ^ numLines) 0
  advantageFunction maximizingPlayer - advantageFunction minimizingPlayer

/-- `isBaseCase(state, depth)`: true iff there are no successor states or the
depth is zero. -/
def isBaseCase (state : GameState) (depth : Nat) : Bool :=
  let possibleSuccessorStates := state.nextStates
  let numberPossibleSuccessorStates := possibleSuccessorStates.length
  numberPossibleSuccessorStates == 0 || depth == 0

/-- `Math.max.apply(null, nextValues)` on the nonempty arrays the search feeds
it (`isBaseCase` guards the empty case; the `[]` branch is unreachable there). -/
def listMax : List Int → Int
  | [] => 0
  | v :: vs => vs.foldl max v

/-- `Math.min.apply(null, nextValues)` on the nonempty arrays the search feeds
it (the `[]` branch is unreachable behind `isBaseCase`). -/
def listMin : List Int → Int
  | [] => 0
  | v :: vs => vs.foldl min v

/-- `minimax(state, depth, maximizingPlayer)` from `src/minimax.js`.
The `0` arm of the inner `match` is unreachable: `isBaseCase state 0` is
always `true`, so the `else` branch is only entered at positive depth (in the
source, `depth-1` is only computed there). -/
def minimax (state : GameState) (depth : Nat) (maximizingPlayer : Player) : Int :=
  if isBaseCase state depth then
    heuristic state maximizingPlayer
  else
    match depth with
    | 0 => heuristic state maximizingPlayer
    | Nat.succ d =>
      let possibleStates := state.nextStates
      let minimizingPlayer := if maximizingPlayer = Player.x then Player.o else Player.x
      let currentPlayer := state.nextMovePlayer
      let nextValues := possibleStates.map fun s => minimax s d maximizingPlayer
      if currentPlayer = maximizingPlayer then
        listMax nextValues
      else
        listMin nextValues

/-- The `for` loop of the maximizing branch of `minimaxAlphaBetaInner`:
`currentBest` seeded at the incoming `alpha`; per child,
`value = recurse(child, alpha, beta)`, `currentBest = max(value, currentBest)`,
`alpha = max(value, alpha)`, and an early `return currentBest` when
`alpha > beta`. -/
def abLoopMax (recurse : GameState → Int → Int → Int) :
    List GameState → Int → Int → Int → Int
  | [], currentBest, _alpha, _beta => currentBest
  | futureState :: rest, currentBest, alpha, beta =>
    let value := recurse futureState alpha beta
    let currentBest' := max value currentBest
    let alpha' := max value alpha
    if alpha' > beta then currentBest'
    else abLoopMax recurse rest currentBest' alpha' beta

/-- The `for` loop of the minimizing branch of `minimaxAlphaBetaInner`:
`currentBest` seeded at the incoming `beta`; per child,
`currentBest = min(value, currentBest)`, `beta = min(value, beta)`, early
`return currentBest` when `alpha > beta`. -/
def abLoopMin (recurse : GameState → Int → Int → Int) :
    List GameState → Int → Int → Int → Int
  | [], currentBest, _alpha, _beta => currentBest
  | futureState :: rest, currentBest, alpha, beta =>
    let value := recurse futureState alpha beta
    let currentBest' := min value currentBest
    let beta' := min value beta
    if alpha > beta' then currentBest'
    else abLoopMin recurse rest currentBest' alpha beta'

/-- `minimaxAlphaBetaInner(state, depth, alpha, beta)`, the closure inside
`minimaxAlphaBeta` capturing `maximizingPlayer`.  As in `minimax`, the `0`
arm of the inner `match` is unreachable behind `isBaseCase`. -/
def minimaxAlphaBetaInner (maximizingPlayer : Player) (state : GameState)
    (depth : Nat) (alpha beta : Int) : Int :=
  if isBaseCase state depth then
    heuristic state maximizingPlayer
  else
    match depth with
    | 0 => heuristic state maximizingPlayer
    | Nat.succ d =>
      let possibleStates := state.nextStates
      let minimizingPlayer := if maximizingPlayer = Player.x then Player.o else Player.x
      let currentPlayer := state.nextMovePlayer
      if currentPlayer = maximizingPlayer then
        abLoopMax (fun s a b => minimaxAlphaBetaInner maximizingPlayer s d a b)
          possibleStates alpha alpha beta
      else
        abLoopMin (fun s a b => minimaxAlphaBetaInner maximizingPlayer s d a b)
          possibleStates beta alpha beta

/-- `minimaxAlphaBeta(state, depth, maximizingPlayer)`: runs the inner
recursion from the sentinels `-10000000` and `10000000`. -/
def minimaxAlphaBeta (state : GameState) (depth : Nat)
    (maximizingPlayer : Player) : Int :=
  minimaxAlphaBetaInner maximizingPlayer state depth (-10000000) 10000000

/-- `minimaxWrapper(state, maximizingPlayer)`: the Pruned Search at the fixed
depth `DEPTH`. -/
def minimaxWrapper (state : GameState) (maximizingPlayer : Player) : Int :=
  minimaxAlphaBeta state DEPTH maximizingPlayer

/-- The spec's advantage formula for one player: sum over line lengths
{2,3,4} of `lineCount * 100^length`. -/
def lineAdvantage (state : GameState) (player : Player) : Int :=
  (state.numLines 2 player : Int) * 100 ^ 2
    + (state.numLines 3 player : Int) * 100 ^ 3
    + (state.numLines 4 player : Int) * 100 ^ 4

/-- Leaf with one `'x'` line of length 4 (heuristic `100^4 = 100000000` for
`'x'`). -/
def leafA : GameState :=
  .node Player.x (fun len p => if len = 4 ∧ p = Player.x then 1 else 0) []

/-- Leaf with two `'x'` lines of length 4 (heuristic `2 * 100^4` for `'x'`). -/
def leafB : GameState :=
  .node Player.x (fun len p => if len = 4 ∧ p = Player.x then 2 else 0) []

/-- `'x'` to move, successors `[leafA, leafB]` in that order. -/
def rootAB : GameState := .node Player.x (fun _ _ => 0) [leafA, leafB]

/-- Same position with the successors permuted: `[leafB, leafA]`. -/
def rootBA : GameState := .node Player.x (fun _ _ => 0) [leafB, leafA]


/-! ## Helper lemmas about `listMax`, `listMin` and the alpha-beta loops -/

theorem foldl_max_eq_or_mem (l : List Int) (a : Int) :
    l.foldl max a = a ∨ l.foldl max a ∈ l := by
  induction l generalizing a with
  | nil => exact Or.inl rfl
  | cons b t ih =>
    simp only [List.foldl_cons]
    rcases ih (max a b) with h | h
    · rw [h]
      rcases le_total a b with hab | hab
      · exact Or.inr (by simp [max_eq_right hab])
      · exact Or.inl (max_eq_left hab)
    · exact Or.inr (List.mem_cons_of_mem _ h)

theorem le_foldl_max (l : List Int) (a : Int) : a ≤ l.foldl max a := by
  induction l generalizing a with
  | nil => exact le_refl a
  | cons b t ih =>
    simp only [List.foldl_cons]
    exact le_trans (le_max_left a b) (ih (max a b))

theorem mem_le_foldl_max {l : List Int} {v : Int} (h : v ∈ l) (a : Int) :
    v ≤ l.foldl max a := by
  induction l generalizing a with
  | nil => cases h
  | cons b t ih =>
    simp only [List.foldl_cons]
    rcases List.mem_cons.mp h with rfl | hv
    · exact le_trans (le_max_right a v) (le_foldl_max t (max a v))
    · exact ih hv (max a b)

theorem listMax_mem {l : List Int} (h : l ≠ []) : listMax l ∈ l := by
  cases l with
  | nil => exact absurd rfl h
  | cons v vs =>
    rcases foldl_max_eq_or_mem vs v with h' | h'
    · exact List.mem_cons.mpr (Or.inl h')
    · exact List.mem_cons.mpr (Or.inr h')

theorem le_listMax {l : List Int} {v : Int} (h : v ∈ l) : v ≤ listMax l := by
  cases l with
  | nil => cases h
  | cons w ws =>
    rcases List.mem_cons.mp h with rfl | hv
    · exact le_foldl_max ws v
    · exact mem_le_foldl_max hv w

theorem foldl_min_eq_or_mem (l : List Int) (a : Int) :
    l.foldl min a = a ∨ l.foldl min a ∈ l := by
  induction l generalizing a with
  | nil => exact Or.inl rfl
  | cons b t ih =>
    simp only [List.foldl_cons]
    rcases ih (min a b) with h | h
    · rw [h]
      rcases le_total a b with hab | hab
      · exact Or.inl (min_eq_left hab)
      · exact Or.inr (by simp [min_eq_right hab])
    · exact Or.inr (List.mem_cons_of_mem _ h)

theorem foldl_min_le (l : List Int) (a : Int) : l.foldl min a ≤ a := by
  induction l generalizing a with
  | nil => exact le_refl a
  | cons b t ih =>
    simp only [List.foldl_cons]
    exact le_trans (ih (min a b)) (min_le_left a b)

theorem foldl_min_le_mem {l : List Int} {v : Int} (h : v ∈ l) (a : Int) :
    l.foldl min a ≤ v := by
  induction l generalizing a with
  | nil => cases h
  | cons b t ih =>
    simp only [List.foldl_cons]
    rcases List.mem_cons.mp h with rfl | hv
    · exact le_trans (foldl_min_le t (min a v)) (min_le_right a v)
    · exact ih hv (min a b)

theorem listMin_mem {l : List Int} (h : l ≠ []) : listMin l ∈ l := by
  cases l with
  | nil => exact absurd rfl h
  | cons v vs =>
    rcases foldl_min_eq_or_mem vs v with h' | h'
    · exact List.mem_cons.mpr (Or.inl h')
    · exact List.mem_cons.mpr (Or.inr h')

theorem listMin_le {l : List Int} {v : Int} (h : v ∈ l) : listMin l ≤ v := by
  cases l with
  | nil => cases h
  | cons w ws =>
    rcases List.mem_cons.mp h with rfl | hv
    · exact foldl_min_le ws v
    · exact foldl_min_le_mem hv w

theorem le_abLoopMax (recurse : GameState → Int → Int → Int) :
    ∀ (l : List GameState) (currentBest alpha beta : Int),
      currentBest ≤ abLoopMax recurse l currentBest alpha beta := by
  intro l
  induction l with
  | nil => intro cb a b; simp [abLoopMax]
  | cons c rest ih =>
    intro cb a b
    simp only [abLoopMax]
    split
    · exact le_max_right _ _
    · exact le_trans (le_max_right _ _) (ih _ _ _)

theorem abLoopMin_le (recurse : GameState → Int → Int → Int) :
    ∀ (l : List GameState) (currentBest alpha beta : Int),
      abLoopMin recurse l currentBest alpha beta ≤ currentBest := by
  intro l
  induction l with
  | nil => intro cb a b; simp [abLoopMin]
  | cons c rest ih =>
    intro cb a b
    simp only [abLoopMin]
    split
    · exact min_le_right _ _
    · exact le_trans (ih _ _ _) (min_le_right _ _)

/-! ## Claim theorems -/

/-- C1: the claim `minimaxAlphaBeta(P, D, M) == minimax(P, D, M)` for every
position, depth and perspective fails on the code: at `rootAB` with depth 1
and maximizing player `'x'`, the plain search returns `2 * 100^4 = 200000000`
but the pruned search returns `100000000`, because the leaf heuristics
(`±100^4`) escape the alpha/beta sentinels `±10000000`, firing a spurious
cutoff.  This contradicts the source's own comment on `minimaxAlphaBeta`
("Input and output are same as for minimax"). -/
theorem pruned_search_diverges_from_plain :
    minimax rootAB 1 Player.x = 200000000 ∧
    minimaxAlphaBeta rootAB 1 Player.x = 100000000 ∧
    minimax rootAB 1 Player.x ≠ minimaxAlphaBeta rootAB 1 Player.x :=
  ⟨by decide, by decide, by decide⟩

/-- C2: when the cutoff policy does not fire, `minimax` recursively scores
every successor at `depth - 1` with the same `maximizingPlayer`, and returns
the maximum of the child scores when the next mover is the maximizing player,
the minimum otherwise (stated as: the result is a child score and
bounds every child score from the appropriate side). -/
theorem minimax_combines_children (s : GameState) (d : Nat) (M : Player)
    (h : isBaseCase s d = false) :
    (s.nextMovePlayer = M →
      minimax s d M ∈ s.nextStates.map (fun c => minimax c (d - 1) M) ∧
      ∀ v ∈ s.nextStates.map (fun c => minimax c (d - 1) M), v ≤ minimax s d M) ∧
    (s.nextMovePlayer ≠ M →
      minimax s d M ∈ s.nextStates.map (fun c => minimax c (d - 1) M) ∧
      ∀ v ∈ s.nextStates.map (fun c => minimax c (d - 1) M), minimax s d M ≤ v) := by
  cases d with
  | zero => simp [isBaseCase] at h
  | succ d' =>
    have hne : s.nextStates ≠ [] := by
      intro he
      simp [isBaseCase, he] at h
    have hmapne : s.nextStates.map (fun c => minimax c d' M) ≠ [] := by
      simp [hne]
    constructor
    · intro hM
      have hstep : minimax s (Nat.succ d') M
          = listMax (s.nextStates.map fun c => minimax c d' M) := by
        conv_lhs => rw [minimax.eq_def]
        simp only [h, Bool.false_eq_true, if_false, hM, if_true]
      simp only [Nat.succ_sub_one, hstep]
      exact ⟨listMax_mem hmapne, fun v hv => le_listMax hv⟩
    · intro hM
      have hstep : minimax s (Nat.succ d') M
          = listMin (s.nextStates.map fun c => minimax c d' M) := by
        conv_lhs => rw [minimax.eq_def]
        simp only [h, Bool.false_eq_true, if_false, hM, if_false]
      simp only [Nat.succ_sub_one, hstep]
      exact ⟨listMin_mem hmapne, fun v hv => listMin_le hv⟩

theorem minimax_combines_children_witness :
    minimax rootAB 1 Player.x ∈
      rootAB.nextStates.map (fun c => minimax c (1 - 1) Player.x) ∧
    ∀ v ∈ rootAB.nextStates.map (fun c => minimax c (1 - 1) Player.x),
      v ≤ minimax rootAB 1 Player.x :=
  (minimax_combines_children rootAB 1 Player.x (by decide)).1 (by decide)

/-- C3: `heuristic` returns the maximizing player's advantage minus the other
player's, where a player's advantage is the sum over line lengths {2,3,4} of
`lineCount * 100^length`. -/
theorem heuristic_is_advantage_difference (s : GameState) (M : Player) :
    heuristic s M = lineAdvantage s M - lineAdvantage s (otherPlayer M) := by
  cases M <;> simp [heuristic, lineAdvantage, otherPlayer]

/-- C4: `isBaseCase(P, D)` is true iff `D = 0` or `P` has no successors, and
both search variants return `heuristic` exactly when this shared test fires. -/
theorem isBaseCase_spec (s : GameState) (d : Nat) (M : Player) (alpha beta : Int) :
    (isBaseCase s d = true ↔ (d = 0 ∨ s.nextStates = [])) ∧
    (isBaseCase s d = true →
      minimax s d M = heuristic s M ∧
      minimaxAlphaBetaInner M s d alpha beta = heuristic s M) := by
  constructor
  · simp [isBaseCase, List.length_eq_zero, or_comm]
  · intro h
    constructor
    · unfold minimax
      simp [h]
    · unfold minimaxAlphaBetaInner
      simp [h]

theorem isBaseCase_spec_witness :
    (isBaseCase leafA 0 = true ↔ (0 = 0 ∨ leafA.nextStates = [])) ∧
    (isBaseCase leafA 0 = true →
      minimax leafA 0 Player.x = heuristic leafA Player.x ∧
      minimaxAlphaBetaInner Player.x leafA 0 0 0 = heuristic leafA Player.x) :=
  isBaseCase_spec leafA 0 Player.x 0 0

/-- C5: the claim that permuting the successor order changes neither variant's
score fails on the code: `rootAB` and `rootBA` agree on next mover and line
counts and their successor lists are permutations of each other, the plain
search agrees on both, yet the pruned search returns `100000000` on one order
and `200000000` on the other (the same sentinel bug as C1 makes the spurious
cutoff order-dependent). -/
theorem pruned_search_order_dependent :
    List.Perm rootAB.nextStates rootBA.nextStates ∧
    rootAB.nextMovePlayer = rootBA.nextMovePlayer ∧
    (∀ len p, rootAB.numLines len p = rootBA.numLines len p) ∧
    minimax rootAB 1 Player.x = minimax rootBA 1 Player.x ∧
    minimaxAlphaBeta rootAB 1 Player.x = 100000000 ∧
    minimaxAlphaBeta rootBA 1 Player.x = 200000000 :=
  ⟨List.Perm.swap leafB leafA [], rfl, fun _ _ => rfl, by decide, by decide, by decide⟩

/-- C6: on a position with no successors, both search variants return the
static evaluation, at every depth. -/
theorem empty_successors_returns_heuristic (s : GameState) (d : Nat) (M : Player)
    (h : s.nextStates = []) :
    minimax s d M = heuristic s M ∧ minimaxAlphaBeta s d M = heuristic s M := by
  have hb : isBaseCase s d = true := by simp [isBaseCase, h]
  constructor
  · unfold minimax
    simp [hb]
  · unfold minimaxAlphaBeta minimaxAlphaBetaInner
    simp [hb]

theorem empty_successors_returns_heuristic_witness :
    minimax leafA 3 Player.o = heuristic leafA Player.o ∧
    minimaxAlphaBeta leafA 3 Player.o = heuristic leafA Player.o :=
  empty_successors_returns_heuristic leafA 3 Player.o rfl

/-- C7: at depth 0, both search variants return the static evaluation. -/
theorem depth_zero_returns_heuristic (s : GameState) (M : Player) :
    minimax s 0 M = heuristic s M ∧ minimaxAlphaBeta s 0 M = heuristic s M := by
  have hb : isBaseCase s 0 = true := by simp [isBaseCase]
  constructor
  · unfold minimax
    simp [hb]
  · unfold minimaxAlphaBeta minimaxAlphaBetaInner
    simp [hb]

/-- C8: the evaluator is antisymmetric in the perspective:
`heuristic(P, M) = -heuristic(P, other(M))`. -/
theorem heuristic_antisymmetric (s : GameState) (M : Player) :
    heuristic s M = -heuristic s (otherPlayer M) := by
  cases M <;> simp [heuristic, otherPlayer]

/-- C9: the Decision Wrapper is the Pruned Search at the single named
constant `DEPTH = 4`. -/
theorem wrapper_is_pruned_search_at_depth_four (s : GameState) (M : Player) :
    minimaxWrapper s M = minimaxAlphaBeta s 4 M ∧ DEPTH = 4 :=
  ⟨rfl, rfl⟩

/-- C10: in a non-base-case call of `minimaxAlphaBetaInner`, the running best
is seeded at the incoming bound, so the returned value is `≥ alpha` at a
maximizing node and `≤ beta` at a minimizing node. -/
theorem inner_result_clamped_by_bound (M : Player) (s : GameState) (d : Nat)
    (alpha beta : Int) (h : isBaseCase s d = false) :
    (s.nextMovePlayer = M → alpha ≤ minimaxAlphaBetaInner M s d alpha beta) ∧
    (s.nextMovePlayer ≠ M → minimaxAlphaBetaInner M s d alpha beta ≤ beta) := by
  cases d with
  | zero => simp [isBaseCase] at h
  | succ d' =>
    constructor
    · intro hM
      unfold minimaxAlphaBetaInner
      simp only [h, Bool.false_eq_true, if_false, hM, if_true]
      exact le_abLoopMax _ _ _ _ _
    · intro hM
      unfold minimaxAlphaBetaInner
      simp only [h, Bool.false_eq_true, if_false, hM, if_false]
      exact abLoopMin_le _ _ _ _ _

theorem inner_result_clamped_by_bound_witness :
    (0 : Int) ≤ minimaxAlphaBetaInner Player.x rootAB 1 0 5 :=
  (inner_result_clamped_by_bound Player.x rootAB 1 0 5 (by decide)).1 (by decide)
